import Mathlib

/-!
Verification of the image-processing library (pixel codec, squash,
color-rotate, blur, expand) against its specification.

The C code is shallowly embedded: pixels are natural numbers with all
unsigned-32-bit operations performed modulo 2^32, images are a width, a
height and a row-major list of pixel words, and each transform is a fold
over the output cells of a pair (input image, output image), writing only
into the output buffer, exactly as the C loops do.
-/

set_option maxHeartbeats 1000000

/-- Modulus of unsigned 32-bit arithmetic. -/
def U32 : Nat := 4294967296

/-- Extraction of the red channel: pixel shifted right 24, masked to 8 bits. -/
def get_r (pixel : Nat) : Nat := ((pixel % U32) >>> 24) &&& 0xFF

/-- Extraction of the green channel. -/
def get_g (pixel : Nat) : Nat := ((pixel % U32) >>> 16) &&& 0xFF

/-- Extraction of the blue channel. -/
def get_b (pixel : Nat) : Nat := ((pixel % U32) >>> 8) &&& 0xFF

/-- Extraction of the alpha channel. -/
def get_a (pixel : Nat) : Nat := (pixel % U32) &&& 0xFF

/-- Packing of four channel words into one pixel word, as in the C source:
(r << 24) | (g << 16) | (b << 8) | a, with every operation on uint32_t. -/
def make_pixel (r g b a : Nat) : Nat :=
  (((r % U32) <<< 24) % U32) ||| (((g % U32) <<< 16) % U32) |||
    (((b % U32) <<< 8) % U32) ||| (a % U32)

/-- An in-memory raster: dimensions plus a row-major pixel buffer. -/
structure Image where
  width : Nat
  height : Nat
  data : List Nat
deriving DecidableEq

/-- Linear index of the pixel at (row, col), as computed by compute_index. -/
def compute_index (img : Image) (row col : Nat) : Nat := row * img.width + col

/-- The pair of rasters a transform call operates on: the input buffer it
reads and the output buffer it writes. -/
structure ImgPair where
  inp : Image
  out : Image
deriving DecidableEq

/-- Writing one pixel word into a raster buffer. -/
def setPix (img : Image) (idx v : Nat) : Image := { img with data := img.data.set idx v }

/-- Body of the inner (column) loop shared by all four transforms: compute
the cell value from the input raster and store it at row * w + col in the
output buffer; a none result models a loop body whose guard failed, which
leaves the output cell untouched. -/
def cellStep (w : Nat) (g : Image → Nat → Nat → Option Nat) (row : Nat)
    (s : ImgPair) (col : Nat) : ImgPair :=
  match g s.inp row col with
  | some v => { s with out := setPix s.out (row * w + col) v }
  | none => s

/-- The inner (column) loop: for (col = 0; col < w; col++). -/
def rowStep (w : Nat) (g : Image → Nat → Nat → Option Nat) (s : ImgPair) (row : Nat) : ImgPair :=
  (List.range w).foldl (cellStep w g row) s

/-- The outer (row) loop: for (row = 0; row < h; row++). -/
def transLoop (w h : Nat) (g : Image → Nat → Nat → Option Nat) (s : ImgPair) : ImgPair :=
  (List.range h).foldl (rowStep w g) s

/-- The inclusive integer range [s, e] traversed by a C loop
for (i = s; i <= e; i++); empty when e < s. -/
def intRange (s e : Int) : List Int :=
  (List.range (e + 1 - s).toNat).map (fun i => s + Int.ofNat i)

/-- The four clamped window bounds (r_start, r_end, c_start, c_end)
computed at the top of blur_pixel. -/
def blur_bounds (img : Image) (row col blur_dist : Int) : Int × Int × Int × Int :=
  let r_start := row - blur_dist
  let r_end := row + blur_dist
  let c_start := col - blur_dist
  let c_end := col + blur_dist
  (if r_start < 0 then 0 else r_start,
   if (img.height : Int) ≤ r_end then (img.height : Int) - 1 else r_end,
   if c_start < 0 then 0 else c_start,
   if (img.width : Int) ≤ c_end then (img.width : Int) - 1 else c_end)

/-- Reading the pixel at (r, c) through the row-major index, for the
integer-typed loop counters of blur_pixel. -/
def pixAtI (img : Image) (r c : Int) : Nat :=
  img.data.getD (r * (img.width : Int) + c).toNat 0

/-- The accumulation loop of blur_pixel: running uint32_t totals of the
red, green and blue channels and the pixel count over the clamped window. -/
def blur_totals (img : Image) (r_start r_end c_start c_end : Int) : Nat × Nat × Nat × Nat :=
  (intRange r_start r_end).foldl (fun t r =>
    (intRange c_start c_end).foldl (fun t c =>
      ((t.1 + get_r (pixAtI img r c)) % U32, (t.2.1 + get_g (pixAtI img r c)) % U32,
       (t.2.2.1 + get_b (pixAtI img r c)) % U32, (t.2.2.2 + 1) % U32)) t) (0, 0, 0, 0)

/-- blur_pixel from the C source: average the channel totals over the
clamped window by truncating division and keep the center pixel's alpha. -/
def blur_pixel (img : Image) (row col blur_dist : Int) : Nat :=
  let bnd := blur_bounds img row col blur_dist
  let t := blur_totals img bnd.1 bnd.2.1 bnd.2.2.1 bnd.2.2.2
  let r_avg := t.1 / t.2.2.2
  let g_avg := t.2.1 / t.2.2.2
  let b_avg := t.2.2.1 / t.2.2.2
  let a := get_a (pixAtI img row col)
  make_pixel r_avg g_avg b_avg a

/-- rot_colors from the C source: cyclic channel permutation, alpha kept. -/
def rot_colors (img : Image) (index : Nat) : Nat :=
  let pixel := img.data.getD index 0
  let r := get_r pixel
  let g := get_g pixel
  let b := get_b pixel
  let a := get_a pixel
  make_pixel b r g a

/-- avg_pixels from the C source: uint32_t channel totals over the first
num_pixels entries, each divided by num_pixels with truncating division. -/
def avg_pixels (pixels : List Nat) (num_pixels : Nat) : Nat :=
  let t := (List.range num_pixels).foldl (fun t i =>
    ((t.1 + get_r (pixels.getD i 0)) % U32, (t.2.1 + get_g (pixels.getD i 0)) % U32,
     (t.2.2.1 + get_b (pixels.getD i 0)) % U32, (t.2.2.2 + get_a (pixels.getD i 0)) % U32))
    ((0, 0, 0, 0) : Nat × Nat × Nat × Nat)
  make_pixel (t.1 / num_pixels) (t.2.1 / num_pixels) (t.2.2.1 / num_pixels) (t.2.2.2 / num_pixels)

/-- imgproc_squash: loop over the output raster, point-sampling the input
at (row * yfac, col * xfac) when that coordinate is in bounds. -/
def imgproc_squash (s : ImgPair) (xfac yfac : Nat) : ImgPair :=
  transLoop s.out.width s.out.height
    (fun inp row col =>
      let input_row := row * yfac
      let input_col := col * xfac
      if input_row < inp.height ∧ input_col < inp.width then
        some (inp.data.getD (compute_index inp input_row input_col) 0)
      else none) s

/-- imgproc_color_rot: loop over the input raster dimensions, rotating the
color channels of each pixel. -/
def imgproc_color_rot (s : ImgPair) : ImgPair :=
  transLoop s.inp.width s.inp.height
    (fun inp row col => some (rot_colors inp (compute_index inp row col))) s

/-- imgproc_blur: loop over the input raster dimensions, blurring each pixel. -/
def imgproc_blur (s : ImgPair) (blur_dist : Int) : ImgPair :=
  transLoop s.inp.width s.inp.height
    (fun inp row col => some (blur_pixel inp (row : Int) (col : Int) blur_dist)) s

/-- The candidate pixel list built by the averaging cases of imgproc_expand
(cases 2, 3 and 4 of the C source, in the order the code pushes them). -/
def expand_candidates (inp : Image) (row col : Nat) : List Nat :=
  let r := row / 2
  let c := col / 2
  if row % 2 = 0 ∧ col % 2 = 1 then
    [inp.data.getD (compute_index inp r c) 0] ++
      (if c + 1 < inp.width then [inp.data.getD (compute_index inp r (c + 1)) 0] else [])
  else if row % 2 = 1 ∧ col % 2 = 0 then
    [inp.data.getD (compute_index inp r c) 0] ++
      (if r + 1 < inp.height then [inp.data.getD (compute_index inp (r + 1) c) 0] else [])
  else
    [inp.data.getD (compute_index inp r c) 0] ++
      (if c + 1 < inp.width then [inp.data.getD (compute_index inp r (c + 1)) 0] else []) ++
      (if r + 1 < inp.height then [inp.data.getD (compute_index inp (r + 1) c) 0] else []) ++
      (if c + 1 < inp.width ∧ r + 1 < inp.height then
        [inp.data.getD (compute_index inp (r + 1) (c + 1)) 0] else [])

/-- One output cell of imgproc_expand: a direct copy when both coordinates
are even, otherwise the average of the candidate pixels. -/
def expand_cell (inp : Image) (row col : Nat) : Nat :=
  if row % 2 = 0 ∧ col % 2 = 0 then
    inp.data.getD (compute_index inp (row / 2) (col / 2)) 0
  else
    let pixels := expand_candidates inp row col
    avg_pixels pixels pixels.length

/-- imgproc_expand: loop over the output raster, filling every cell. -/
def imgproc_expand (s : ImgPair) : ImgPair :=
  transLoop s.out.width s.out.height (fun inp row col => some (expand_cell inp row col)) s

/-- Specification-side clamped window rows for blur at a given row:
[row - blurDist, row + blurDist] intersected with [0, height - 1]. -/
def windowRows (img : Image) (row d : Int) : List Int :=
  intRange (max (row - d) 0) (min (row + d) ((img.height : Int) - 1))

/-- Specification-side clamped window columns for blur at a given column. -/
def windowCols (img : Image) (col d : Int) : List Int :=
  intRange (max (col - d) 0) (min (col + d) ((img.width : Int) - 1))

/-- Sum of a channel over a rectangle of coordinates. -/
def rectSum (img : Image) (f : Nat → Nat) (rows cols : List Int) : Nat :=
  (rows.map (fun r => ((cols.map (fun c => f (pixAtI img r c))).sum))).sum

/-- Specification-side channel sum over the clamped blur window. -/
def windowSum (img : Image) (f : Nat → Nat) (row col d : Int) : Nat :=
  rectSum img f (windowRows img row d) (windowCols img col d)

/-- Specification-side exact number of pixels in the clamped blur window. -/
def windowCount (img : Image) (row col d : Int) : Nat :=
  (windowRows img row d).length * (windowCols img col d).length

/-- Specification-side candidate list for expand, following the claim: the
candidate at (r, c) always, (r, c+1) only when j is odd and c+1 is in
bounds, (r+1, c) only when i is odd and r+1 is in bounds, and (r+1, c+1)
only when i and j are both odd and both are in bounds. -/
def expandCandidatesSpec (img : Image) (i j : Nat) : List Nat :=
  let r := i / 2
  let c := j / 2
  [img.data.getD (compute_index img r c) 0] ++
    (if j % 2 = 1 ∧ c + 1 < img.width then
      [img.data.getD (compute_index img r (c + 1)) 0] else []) ++
    (if i % 2 = 1 ∧ r + 1 < img.height then
      [img.data.getD (compute_index img (r + 1) c) 0] else []) ++
    (if i % 2 = 1 ∧ j % 2 = 1 ∧ r + 1 < img.height ∧ c + 1 < img.width then
      [img.data.getD (compute_index img (r + 1) (c + 1)) 0] else [])

/-- The color rotation acting on a single pixel word. -/
def rotPixel (p : Nat) : Nat := make_pixel (get_b p) (get_r p) (get_g p) (get_a p)

/-- The 3 by 3 input raster of the squash example in the specification. -/
def squashIn3 : Image :=
  ⟨3, 3, [0xFF000080, 0x00FF0080, 0x0000FF80, 0x80800080, 0xFFFFFF80, 0x00000080,
          0xFF00FF80, 0x00FFFF80, 0xFFFF0080]⟩

/-- A zero-filled 2 by 3 output raster for the squash example. -/
def squashOut23 : Image := ⟨2, 3, [0, 0, 0, 0, 0, 0]⟩

/-- A one-row raster of 16843010 pure-red pixels; its full-width blur
window makes the 32-bit red accumulator of blur_pixel overflow. -/
def blurBigImg : Image := ⟨16843010, 1, List.replicate 16843010 0xFF000000⟩

/-- A zero-filled output raster of the same shape as blurBigImg. -/
def blurBigOut : Image := ⟨16843010, 1, List.replicate 16843010 0⟩

example : get_r 0xFF000080 = 0xFF := by decide
example : make_pixel 0x12 0x34 0x56 0x78 = 0x12345678 := by decide
example : rotPixel 0xAABBCCDD = 0xCCAABBDD := by decide
example : avg_pixels [0x00000000, 0xFF000000, 0x80000000, 0x40000000] 4 = 0x6F000000 := by decide
example : blur_pixel ⟨2, 2, [10, 20, 30, 40]⟩ 0 0 1 =
    make_pixel ((get_r 10 + get_r 20 + get_r 30 + get_r 40) / 4)
      ((get_g 10 + get_g 20 + get_g 30 + get_g 40) / 4)
      ((get_b 10 + get_b 20 + get_b 30 + get_b 40) / 4) (get_a 10) := by decide
example : (imgproc_squash ⟨squashIn3, squashOut23⟩ 2 1).out.data =
    [0xFF000080, 0x0000FF80, 0x80800080, 0x00000080, 0xFF00FF80, 0xFFFF0080] := by decide

/-! ### Bit-level facts about the pixel codec -/

theorem U32_eq : U32 = 2 ^ 32 := by norm_num [U32]

/-- Disjoint bitwise or is addition: a value shifted past n bits or-ed with
a value below 2 ^ n. -/
theorem lor_mul_pow_add {z y : Nat} (n : Nat) (hy : y < 2 ^ n) :
    (z * 2 ^ n) ||| y = z * 2 ^ n + y := by
  apply Nat.eq_of_testBit_eq
  intro i
  rw [Nat.testBit_lor]
  rcases Nat.lt_or_ge i n with hi | hi
  · have h1 : (z * 2 ^ n).testBit i = false := by
      rw [← Nat.shiftLeft_eq, Nat.testBit_shiftLeft]
      simp [Nat.not_le_of_lt hi]
    have hmod : (z * 2 ^ n + y) % 2 ^ n = y := by
      rw [Nat.mul_comm z, Nat.mul_add_mod]; exact Nat.mod_eq_of_lt hy
    have h2 := Nat.testBit_mod_two_pow (z * 2 ^ n + y) n i
    rw [hmod] at h2
    simp [hi] at h2
    rw [h1, Bool.false_or]
    exact h2
  · have h1 : y.testBit i = false :=
      Nat.testBit_lt_two_pow (lt_of_lt_of_le hy (Nat.pow_le_pow_right (by norm_num) hi))
    have e1 : (2 : Nat) ^ i = 2 ^ n * 2 ^ (i - n) := by
      rw [← pow_add]; congr 1; omega
    have d1 : (z * 2 ^ n + y) / 2 ^ i = z / 2 ^ (i - n) := by
      rw [e1, ← Nat.div_div_eq_div_mul]
      congr 1
      rw [Nat.mul_comm z, Nat.mul_add_div (Nat.two_pow_pos n), Nat.div_eq_of_lt hy, Nat.add_zero]
    have d2 : (z * 2 ^ n) / 2 ^ i = z / 2 ^ (i - n) := by
      rw [e1, ← Nat.div_div_eq_div_mul]
      congr 1
      rw [Nat.mul_comm z, Nat.mul_div_cancel_left _ (Nat.two_pow_pos n)]
    rw [h1, Nat.testBit_to_div_mod, Nat.testBit_to_div_mod, d1, d2]
    simp

/-- Arithmetic form of make_pixel for in-range channel values. -/
theorem make_pixel_eq {r g b a : Nat} (hr : r < 256) (hg : g < 256) (hb : b < 256)
    (ha : a < 256) : make_pixel r g b a = r * 16777216 + g * 65536 + b * 256 + a := by
  have hU : ∀ x : Nat, x < 256 → x % U32 = x := fun x hx =>
    Nat.mod_eq_of_lt (lt_trans hx (by norm_num [U32]))
  have p8 : (256 : Nat) = 2 ^ 8 := by norm_num
  have p16 : (65536 : Nat) = 2 ^ 16 := by norm_num
  have p24 : (16777216 : Nat) = 2 ^ 24 := by norm_num
  unfold make_pixel
  rw [hU r hr, hU g hg, hU b hb, hU a ha]
  rw [Nat.shiftLeft_eq, Nat.shiftLeft_eq, Nat.shiftLeft_eq]
  have m1 : r * 2 ^ 24 % U32 = r * 2 ^ 24 := Nat.mod_eq_of_lt (by norm_num [U32]; omega)
  have m2 : g * 2 ^ 16 % U32 = g * 2 ^ 16 := Nat.mod_eq_of_lt (by norm_num [U32]; omega)
  have m3 : b * 2 ^ 8 % U32 = b * 2 ^ 8 := Nat.mod_eq_of_lt (by norm_num [U32]; omega)
  rw [m1, m2, m3]
  rw [Nat.lor_assoc, Nat.lor_assoc]
  have i1 : (b * 2 ^ 8) ||| a = b * 2 ^ 8 + a := lor_mul_pow_add 8 (by omega)
  have i2 : (g * 2 ^ 16) ||| (b * 2 ^ 8 + a) = g * 2 ^ 16 + (b * 2 ^ 8 + a) := by
    apply lor_mul_pow_add 16
    have hb2 : b * 2 ^ 8 ≤ 255 * 2 ^ 8 := Nat.mul_le_mul_right _ (by omega)
    omega
  have i3 : (r * 2 ^ 24) ||| (g * 2 ^ 16 + (b * 2 ^ 8 + a)) =
      r * 2 ^ 24 + (g * 2 ^ 16 + (b * 2 ^ 8 + a)) := by
    apply lor_mul_pow_add 24
    have hg2 : g * 2 ^ 16 ≤ 255 * 2 ^ 16 := Nat.mul_le_mul_right _ (by omega)
    have hb2 : b * 2 ^ 8 ≤ 255 * 2 ^ 8 := Nat.mul_le_mul_right _ (by omega)
    omega
  rw [i1, i2, i3, p8, p16, p24]
  ring

/-- Arithmetic form of the red extractor. -/
theorem get_r_eq (p : Nat) : get_r p = p % 4294967296 / 16777216 % 256 := by
  have h255 : (0xFF : Nat) = 2 ^ 8 - 1 := by norm_num
  rw [get_r, h255, Nat.and_pow_two_sub_one_eq_mod, Nat.shiftRight_eq_div_pow]
  norm_num [U32]

/-- Arithmetic form of the green extractor. -/
theorem get_g_eq (p : Nat) : get_g p = p % 4294967296 / 65536 % 256 := by
  have h255 : (0xFF : Nat) = 2 ^ 8 - 1 := by norm_num
  rw [get_g, h255, Nat.and_pow_two_sub_one_eq_mod, Nat.shiftRight_eq_div_pow]
  norm_num [U32]

/-- Arithmetic form of the blue extractor. -/
theorem get_b_eq (p : Nat) : get_b p = p % 4294967296 / 256 % 256 := by
  have h255 : (0xFF : Nat) = 2 ^ 8 - 1 := by norm_num
  rw [get_b, h255, Nat.and_pow_two_sub_one_eq_mod, Nat.shiftRight_eq_div_pow]
  norm_num [U32]

/-- Arithmetic form of the alpha extractor. -/
theorem get_a_eq (p : Nat) : get_a p = p % 4294967296 % 256 := by
  have h255 : (0xFF : Nat) = 2 ^ 8 - 1 := by norm_num
  rw [get_a, h255, Nat.and_pow_two_sub_one_eq_mod]
  norm_num [U32]

theorem get_r_lt (p : Nat) : get_r p < 256 := by rw [get_r_eq]; omega

theorem get_g_lt (p : Nat) : get_g p < 256 := by rw [get_g_eq]; omega

theorem get_b_lt (p : Nat) : get_b p < 256 := by rw [get_b_eq]; omega

theorem get_a_lt (p : Nat) : get_a p < 256 := by rw [get_a_eq]; omega

theorem get_r_make_pixel {r g b a : Nat} (hr : r < 256) (hg : g < 256) (hb : b < 256)
    (ha : a < 256) : get_r (make_pixel r g b a) = r := by
  rw [make_pixel_eq hr hg hb ha, get_r_eq]; omega

theorem get_g_make_pixel {r g b a : Nat} (hr : r < 256) (hg : g < 256) (hb : b < 256)
    (ha : a < 256) : get_g (make_pixel r g b a) = g := by
  rw [make_pixel_eq hr hg hb ha, get_g_eq]; omega

theorem get_b_make_pixel {r g b a : Nat} (hr : r < 256) (hg : g < 256) (hb : b < 256)
    (ha : a < 256) : get_b (make_pixel r g b a) = b := by
  rw [make_pixel_eq hr hg hb ha, get_b_eq]; omega

theorem get_a_make_pixel {r g b a : Nat} (hr : r < 256) (hg : g < 256) (hb : b < 256)
    (ha : a < 256) : get_a (make_pixel r g b a) = a := by
  rw [make_pixel_eq hr hg hb ha, get_a_eq]; omega

/-- Repacking the four extracted channels of a 32-bit pixel word gives the
word back. -/
theorem make_pixel_get (p : Nat) (hp : p < U32) :
    make_pixel (get_r p) (get_g p) (get_b p) (get_a p) = p := by
  have hp4 : p < 4294967296 := by rw [U32] at hp; exact hp
  rw [make_pixel_eq (get_r_lt p) (get_g_lt p) (get_b_lt p) (get_a_lt p),
    get_r_eq, get_g_eq, get_b_eq, get_a_eq]
  omega

/-- Every packed pixel word fits in 32 bits. -/
theorem make_pixel_lt (r g b a : Nat) : make_pixel r g b a < U32 := by
  rw [U32_eq]
  unfold make_pixel
  have h32 : (0 : Nat) < 2 ^ 32 := by norm_num
  apply Nat.or_lt_two_pow
  apply Nat.or_lt_two_pow
  apply Nat.or_lt_two_pow
  all_goals rw [← U32_eq]; exact Nat.mod_lt _ (by norm_num [U32])

/-- Triple application of the color rotation is the identity on any 32-bit
pixel word. -/
theorem rotPixel_three (p : Nat) (hp : p < U32) : rotPixel (rotPixel (rotPixel p)) = p := by
  have h1 : rotPixel (rotPixel p) = make_pixel (get_g p) (get_b p) (get_r p) (get_a p) := by
    rw [rotPixel, rotPixel,
      get_b_make_pixel (get_b_lt p) (get_r_lt p) (get_g_lt p) (get_a_lt p),
      get_r_make_pixel (get_b_lt p) (get_r_lt p) (get_g_lt p) (get_a_lt p),
      get_g_make_pixel (get_b_lt p) (get_r_lt p) (get_g_lt p) (get_a_lt p),
      get_a_make_pixel (get_b_lt p) (get_r_lt p) (get_g_lt p) (get_a_lt p)]
  rw [h1, rotPixel,
    get_b_make_pixel (get_g_lt p) (get_b_lt p) (get_r_lt p) (get_a_lt p),
    get_r_make_pixel (get_g_lt p) (get_b_lt p) (get_r_lt p) (get_a_lt p),
    get_g_make_pixel (get_g_lt p) (get_b_lt p) (get_r_lt p) (get_a_lt p),
    get_a_make_pixel (get_g_lt p) (get_b_lt p) (get_r_lt p) (get_a_lt p)]
  exact make_pixel_get p hp

/-! ### Ranges, lists and accumulation loops -/

theorem intRange_length (s e : Int) : (intRange s e).length = (e + 1 - s).toNat := by
  rw [intRange, List.length_map, List.length_range]

theorem mem_intRange {s e x : Int} : x ∈ intRange s e ↔ s ≤ x ∧ x ≤ e := by
  rw [intRange, List.mem_map]
  constructor
  · rintro ⟨i, hi, rfl⟩
    rw [List.mem_range] at hi
    simp only [Int.ofNat_eq_coe]
    omega
  · rintro ⟨h1, h2⟩
    refine ⟨(x - s).toNat, ?_, ?_⟩
    · rw [List.mem_range]
      omega
    · simp only [Int.ofNat_eq_coe]
      omega

theorem getD_set_self {l : List Nat} {i : Nat} (v : Nat) (h : i < l.length) :
    (l.set i v).getD i 0 = v := by
  simp [List.getD_eq_getElem?_getD, List.getElem?_set_self h]

theorem getD_set_ne {l : List Nat} {i j : Nat} (v : Nat) (h : i ≠ j) :
    (l.set i v).getD j 0 = l.getD j 0 := by
  simp [List.getD_eq_getElem?_getD, List.getElem?_set_ne h]

theorem sum_map_le_mul {α : Type} (l : List α) (f : α → Nat) (k : Nat)
    (h : ∀ x ∈ l, f x ≤ k) : (l.map f).sum ≤ k * l.length := by
  induction l with
  | nil => simp
  | cons a l ih =>
    simp only [List.map_cons, List.sum_cons, List.length_cons]
    have h1 := h a (by simp)
    have h2 := ih (fun x hx => h x (by simp [hx]))
    have h3 : k * (l.length + 1) = k * l.length + k := by ring
    omega

theorem sum_map_const {α : Type} (l : List α) (f : α → Nat) (k : Nat)
    (h : ∀ x ∈ l, f x = k) : (l.map f).sum = k * l.length := by
  induction l with
  | nil => simp
  | cons a l ih =>
    simp only [List.map_cons, List.sum_cons, List.length_cons]
    have h1 := h a (by simp)
    have h2 := ih (fun x hx => h x (by simp [hx]))
    have h3 : k * (l.length + 1) = k * l.length + k := by ring
    omega

/-- Characterization of a four-channel uint32_t accumulation loop: each
component ends as its start plus the list sum, reduced modulo 2 ^ 32. -/
theorem foldq {α : Type} (f1 f2 f3 f4 : α → Nat) (l : List α) (t : Nat × Nat × Nat × Nat)
    (h1 : t.1 < U32) (h2 : t.2.1 < U32) (h3 : t.2.2.1 < U32) (h4 : t.2.2.2 < U32) :
    l.foldl (fun t x => ((t.1 + f1 x) % U32, (t.2.1 + f2 x) % U32,
      (t.2.2.1 + f3 x) % U32, (t.2.2.2 + f4 x) % U32)) t =
    ((t.1 + (l.map f1).sum) % U32, (t.2.1 + (l.map f2).sum) % U32,
     (t.2.2.1 + (l.map f3).sum) % U32, (t.2.2.2 + (l.map f4).sum) % U32) := by
  induction l generalizing t with
  | nil =>
    simp only [List.foldl_nil, List.map_nil, List.sum_nil, Nat.add_zero]
    rw [Nat.mod_eq_of_lt h1, Nat.mod_eq_of_lt h2, Nat.mod_eq_of_lt h3, Nat.mod_eq_of_lt h4]
  | cons a l ih =>
    have hU : (0 : Nat) < U32 := by norm_num [U32]
    simp only [List.foldl_cons, List.map_cons, List.sum_cons]
    rw [ih _ (Nat.mod_lt _ hU) (Nat.mod_lt _ hU) (Nat.mod_lt _ hU) (Nat.mod_lt _ hU)]
    simp only [Prod.mk.injEq]
    refine ⟨?_, ?_, ?_, ?_⟩ <;> rw [Nat.mod_add_mod, Nat.add_assoc]

theorem rectSum_nil (img : Image) (f : Nat → Nat) (cols : List Int) :
    rectSum img f [] cols = 0 := by simp [rectSum]

theorem rectSum_cons (img : Image) (f : Nat → Nat) (r : Int) (rows cols : List Int) :
    rectSum img f (r :: rows) cols =
      ((cols.map (fun c => f (pixAtI img r c))).sum) + rectSum img f rows cols := by
  simp [rectSum]

/-- The row loop of blur_pixel as a closed form, for any start tuple with
in-range components. -/
theorem blur_rows_fold (img : Image) (cs ce : Int) (rows : List Int)
    (t : Nat × Nat × Nat × Nat) (h1 : t.1 < U32) (h2 : t.2.1 < U32)
    (h3 : t.2.2.1 < U32) (h4 : t.2.2.2 < U32) :
    rows.foldl (fun t r =>
      (intRange cs ce).foldl (fun t c =>
        ((t.1 + get_r (pixAtI img r c)) % U32, (t.2.1 + get_g (pixAtI img r c)) % U32,
         (t.2.2.1 + get_b (pixAtI img r c)) % U32, (t.2.2.2 + 1) % U32)) t) t =
    ((t.1 + rectSum img get_r rows (intRange cs ce)) % U32,
     (t.2.1 + rectSum img get_g rows (intRange cs ce)) % U32,
     (t.2.2.1 + rectSum img get_b rows (intRange cs ce)) % U32,
     (t.2.2.2 + rows.length * (intRange cs ce).length) % U32) := by
  induction rows generalizing t with
  | nil =>
    simp only [List.foldl_nil, rectSum_nil, List.length_nil, Nat.zero_mul, Nat.add_zero]
    rw [Nat.mod_eq_of_lt h1, Nat.mod_eq_of_lt h2, Nat.mod_eq_of_lt h3, Nat.mod_eq_of_lt h4]
  | cons r rows ih =>
    have hU : (0 : Nat) < U32 := by norm_num [U32]
    simp only [List.foldl_cons]
    rw [foldq (fun c => get_r (pixAtI img r c)) (fun c => get_g (pixAtI img r c))
      (fun c => get_b (pixAtI img r c)) (fun _ => 1) (intRange cs ce) t h1 h2 h3 h4]
    rw [ih _ (Nat.mod_lt _ hU) (Nat.mod_lt _ hU) (Nat.mod_lt _ hU) (Nat.mod_lt _ hU)]
    simp only [Prod.mk.injEq, rectSum_cons, List.length_cons]
    have hc : ((intRange cs ce).map (fun _ => (1 : Nat))).sum = (intRange cs ce).length := by
      rw [sum_map_const _ _ 1 (fun x _ => rfl), Nat.one_mul]
    refine ⟨?_, ?_, ?_, ?_⟩
    · rw [Nat.mod_add_mod, Nat.add_assoc]
    · rw [Nat.mod_add_mod, Nat.add_assoc]
    · rw [Nat.mod_add_mod, Nat.add_assoc]
    · rw [Nat.mod_add_mod, hc]
      congr 1
      ring

/-- Closed form of the accumulation loop of blur_pixel. -/
theorem blur_totals_eq (img : Image) (rs re cs ce : Int) :
    blur_totals img rs re cs ce =
      (rectSum img get_r (intRange rs re) (intRange cs ce) % U32,
       rectSum img get_g (intRange rs re) (intRange cs ce) % U32,
       rectSum img get_b (intRange rs re) (intRange cs ce) % U32,
       ((intRange rs re).length * (intRange cs ce).length) % U32) := by
  have hU : (0 : Nat) < U32 := by norm_num [U32]
  unfold blur_totals
  rw [blur_rows_fold img cs ce (intRange rs re) (0, 0, 0, 0) hU hU hU hU]
  simp

theorem map_range_getD (l : List Nat) (f : Nat → Nat) :
    (List.range l.length).map (fun i => f (l.getD i 0)) = l.map f := by
  induction l with
  | nil => simp
  | cons a l ih =>
    have he : ((fun i => f ((a :: l).getD i 0)) ∘ (fun i => i + 1)) = fun i => f (l.getD i 0) := by
      funext i
      simp [List.getD_cons_succ]
    rw [List.length_cons, List.range_succ_eq_map, List.map_cons, List.map_map, he, ih,
      List.map_cons]
    rfl

/-- Closed form of avg_pixels when called, as in the C code, with the exact
length of the pixel array, provided the channel sums fit in 32 bits. -/
theorem avg_pixels_eq (pixels : List Nat) (h : 255 * pixels.length < U32) :
    avg_pixels pixels pixels.length =
      make_pixel ((pixels.map get_r).sum / pixels.length)
        ((pixels.map get_g).sum / pixels.length)
        ((pixels.map get_b).sum / pixels.length)
        ((pixels.map get_a).sum / pixels.length) := by
  have hU : (0 : Nat) < U32 := by norm_num [U32]
  unfold avg_pixels
  rw [foldq (fun i => get_r (pixels.getD i 0)) (fun i => get_g (pixels.getD i 0))
    (fun i => get_b (pixels.getD i 0)) (fun i => get_a (pixels.getD i 0))
    (List.range pixels.length) (0, 0, 0, 0) hU hU hU hU]
  simp only [Nat.zero_add]
  rw [map_range_getD pixels get_r, map_range_getD pixels get_g,
    map_range_getD pixels get_b, map_range_getD pixels get_a]
  have br : (pixels.map get_r).sum < U32 :=
    lt_of_le_of_lt (sum_map_le_mul _ _ 255 (fun x _ => by have := get_r_lt x; omega)) h
  have bg : (pixels.map get_g).sum < U32 :=
    lt_of_le_of_lt (sum_map_le_mul _ _ 255 (fun x _ => by have := get_g_lt x; omega)) h
  have bb : (pixels.map get_b).sum < U32 :=
    lt_of_le_of_lt (sum_map_le_mul _ _ 255 (fun x _ => by have := get_b_lt x; omega)) h
  have ba : (pixels.map get_a).sum < U32 :=
    lt_of_le_of_lt (sum_map_le_mul _ _ 255 (fun x _ => by have := get_a_lt x; omega)) h
  rw [Nat.mod_eq_of_lt br, Nat.mod_eq_of_lt bg, Nat.mod_eq_of_lt bb, Nat.mod_eq_of_lt ba]

/-! ### The write loop shared by the four transforms -/

theorem cellStep_inp (w : Nat) (g : Image → Nat → Nat → Option Nat) (row : Nat)
    (s : ImgPair) (col : Nat) : (cellStep w g row s col).inp = s.inp := by
  unfold cellStep
  cases g s.inp row col <;> rfl

theorem cellStep_out_width (w : Nat) (g : Image → Nat → Nat → Option Nat) (row : Nat)
    (s : ImgPair) (col : Nat) : (cellStep w g row s col).out.width = s.out.width := by
  unfold cellStep
  cases g s.inp row col <;> rfl

theorem cellStep_out_height (w : Nat) (g : Image → Nat → Nat → Option Nat) (row : Nat)
    (s : ImgPair) (col : Nat) : (cellStep w g row s col).out.height = s.out.height := by
  unfold cellStep
  cases g s.inp row col <;> rfl

theorem cellStep_out_length (w : Nat) (g : Image → Nat → Nat → Option Nat) (row : Nat)
    (s : ImgPair) (col : Nat) :
    (cellStep w g row s col).out.data.length = s.out.data.length := by
  unfold cellStep setPix
  cases g s.inp row col <;> simp

theorem foldl_cellStep_inp (w : Nat) (g : Image → Nat → Nat → Option Nat) (row : Nat) :
    ∀ (cols : List Nat) (s : ImgPair), (cols.foldl (cellStep w g row) s).inp = s.inp := by
  intro cols
  induction cols with
  | nil => intro s; rfl
  | cons c0 cols ih =>
    intro s
    rw [List.foldl_cons, ih, cellStep_inp]

theorem foldl_cellStep_out_width (w : Nat) (g : Image → Nat → Nat → Option Nat) (row : Nat) :
    ∀ (cols : List Nat) (s : ImgPair),
      (cols.foldl (cellStep w g row) s).out.width = s.out.width := by
  intro cols
  induction cols with
  | nil => intro s; rfl
  | cons c0 cols ih =>
    intro s
    rw [List.foldl_cons, ih, cellStep_out_width]

theorem foldl_cellStep_out_height (w : Nat) (g : Image → Nat → Nat → Option Nat) (row : Nat) :
    ∀ (cols : List Nat) (s : ImgPair),
      (cols.foldl (cellStep w g row) s).out.height = s.out.height := by
  intro cols
  induction cols with
  | nil => intro s; rfl
  | cons c0 cols ih =>
    intro s
    rw [List.foldl_cons, ih, cellStep_out_height]

theorem foldl_cellStep_out_length (w : Nat) (g : Image → Nat → Nat → Option Nat) (row : Nat) :
    ∀ (cols : List Nat) (s : ImgPair),
      (cols.foldl (cellStep w g row) s).out.data.length = s.out.data.length := by
  intro cols
  induction cols with
  | nil => intro s; rfl
  | cons c0 cols ih =>
    intro s
    rw [List.foldl_cons, ih, cellStep_out_length]

theorem rowStep_inp (w : Nat) (g : Image → Nat → Nat → Option Nat) (s : ImgPair) (row : Nat) :
    (rowStep w g s row).inp = s.inp := foldl_cellStep_inp w g row (List.range w) s

theorem rowStep_out_length (w : Nat) (g : Image → Nat → Nat → Option Nat) (s : ImgPair)
    (row : Nat) : (rowStep w g s row).out.data.length = s.out.data.length :=
  foldl_cellStep_out_length w g row (List.range w) s

theorem foldl_rowStep_inp (w : Nat) (g : Image → Nat → Nat → Option Nat) :
    ∀ (rows : List Nat) (s : ImgPair), (rows.foldl (rowStep w g) s).inp = s.inp := by
  intro rows
  induction rows with
  | nil => intro s; rfl
  | cons r0 rows ih =>
    intro s
    rw [List.foldl_cons, ih, rowStep_inp]

theorem foldl_rowStep_out_length (w : Nat) (g : Image → Nat → Nat → Option Nat) :
    ∀ (rows : List Nat) (s : ImgPair),
      (rows.foldl (rowStep w g) s).out.data.length = s.out.data.length := by
  intro rows
  induction rows with
  | nil => intro s; rfl
  | cons r0 rows ih =>
    intro s
    rw [List.foldl_cons, ih, rowStep_out_length]

/-- No transform loop ever writes to the input raster. -/
theorem transLoop_inp (w h : Nat) (g : Image → Nat → Nat → Option Nat) (s : ImgPair) :
    (transLoop w h g s).inp = s.inp := foldl_rowStep_inp w g (List.range h) s

theorem transLoop_out_length (w h : Nat) (g : Image → Nat → Nat → Option Nat) (s : ImgPair) :
    (transLoop w h g s).out.data.length = s.out.data.length :=
  foldl_rowStep_out_length w g (List.range h) s

theorem transLoop_out_width (w h : Nat) (g : Image → Nat → Nat → Option Nat) (s : ImgPair) :
    (transLoop w h g s).out.width = s.out.width := by
  unfold transLoop
  induction List.range h generalizing s with
  | nil => rfl
  | cons r0 rows ih =>
    rw [List.foldl_cons, ih]
    exact foldl_cellStep_out_width w g r0 (List.range w) s

theorem transLoop_out_height (w h : Nat) (g : Image → Nat → Nat → Option Nat) (s : ImgPair) :
    (transLoop w h g s).out.height = s.out.height := by
  unfold transLoop
  induction List.range h generalizing s with
  | nil => rfl
  | cons r0 rows ih =>
    rw [List.foldl_cons, ih]
    exact foldl_cellStep_out_height w g r0 (List.range w) s

theorem cellStep_getD_ne (w : Nat) (g : Image → Nat → Nat → Option Nat) (row : Nat)
    (s : ImgPair) (col idx : Nat) (hne : row * w + col ≠ idx) :
    (cellStep w g row s col).out.data.getD idx 0 = s.out.data.getD idx 0 := by
  unfold cellStep
  cases g s.inp row col with
  | none => rfl
  | some v => exact getD_set_ne v hne

theorem foldl_cellStep_getD_ne (w : Nat) (g : Image → Nat → Nat → Option Nat)
    (row idx : Nat) :
    ∀ (cols : List Nat) (s : ImgPair), (∀ c ∈ cols, row * w + c ≠ idx) →
      (cols.foldl (cellStep w g row) s).out.data.getD idx 0 = s.out.data.getD idx 0 := by
  intro cols
  induction cols with
  | nil => intro s _; rfl
  | cons c0 cols ih =>
    intro s h
    rw [List.foldl_cons, ih _ (fun c hc => h c (List.mem_cons_of_mem _ hc))]
    exact cellStep_getD_ne w g row s c0 idx (h c0 (List.mem_cons_self _ _))

theorem foldl_cellStep_getD_write (w : Nat) (g : Image → Nat → Nat → Option Nat)
    (row col v : Nat) :
    ∀ (cols : List Nat) (s : ImgPair), cols.Nodup → col ∈ cols →
      g s.inp row col = some v → row * w + col < s.out.data.length →
      (cols.foldl (cellStep w g row) s).out.data.getD (row * w + col) 0 = v := by
  intro cols
  induction cols with
  | nil =>
    intro s _ hmem _ _
    simp at hmem
  | cons c0 cols ih =>
    intro s hnd hmem hg hlen
    rw [List.foldl_cons]
    rcases List.mem_cons.mp hmem with heq | hmem2
    · subst heq
    
      have hstep : (cellStep w g row s col).out.data = s.out.data.set (row * w + col) v := by
        unfold cellStep
        rw [hg]
        rfl
      rw [foldl_cellStep_getD_ne w g row _ cols _ (fun c hc => by
        have hne : c ≠ col := fun he => (List.nodup_cons.mp hnd).1 (he ▸ hc)
        omega)]
      rw [hstep, getD_set_self v hlen]
    · have hne : c0 ≠ col := fun he => (List.nodup_cons.mp hnd).1 (he ▸ hmem2)
      apply ih (cellStep w g row s c0) (List.nodup_cons.mp hnd).2 hmem2
      · rw [cellStep_inp]
        exact hg
      · rw [cellStep_out_length]
        exact hlen

theorem foldl_cellStep_getD_none (w : Nat) (g : Image → Nat → Nat → Option Nat)
    (row col : Nat) :
    ∀ (cols : List Nat) (s : ImgPair), cols.Nodup → col ∈ cols →
      g s.inp row col = none →
      (cols.foldl (cellStep w g row) s).out.data.getD (row * w + col) 0 =
        s.out.data.getD (row * w + col) 0 := by
  intro cols
  induction cols with
  | nil => intro s _ _ _; rfl
  | cons c0 cols ih =>
    intro s hnd hmem hg
    rw [List.foldl_cons]
    rcases List.mem_cons.mp hmem with heq | hmem2
    · subst heq
      have hstep : cellStep w g row s col = s := by
        unfold cellStep
        rw [hg]
      rw [hstep]
      exact foldl_cellStep_getD_ne w g row _ cols s (fun c hc => by
        have hne : c ≠ col := fun he => (List.nodup_cons.mp hnd).1 (he ▸ hc)
        omega)
    · have h0 : (cellStep w g row s c0).out.data.getD (row * w + col) 0 =
          s.out.data.getD (row * w + col) 0 := by
        have hne : c0 ≠ col := fun he => (List.nodup_cons.mp hnd).1 (he ▸ hmem2)
        exact cellStep_getD_ne w g row s c0 _ (by omega)
      rw [ih (cellStep w g row s c0) (List.nodup_cons.mp hnd).2 hmem2 (by
        rw [cellStep_inp]; exact hg), h0]

theorem index_inj {w row col r c : Nat} (hcol : col < w) (hc : c < w)
    (h : row * w + col = r * w + c) : row = r ∧ col = c := by
  have hw : 0 < w := by omega
  have e1 : (row * w + col) / w = row := by
    rw [Nat.mul_comm, Nat.mul_add_div hw, Nat.div_eq_of_lt hcol, Nat.add_zero]
  have e2 : (r * w + c) / w = r := by
    rw [Nat.mul_comm, Nat.mul_add_div hw, Nat.div_eq_of_lt hc, Nat.add_zero]
  have hrr : row = r := by rw [← e1, ← e2, h]
  refine ⟨hrr, ?_⟩
  have h2 := h
  rw [hrr] at h2
  exact Nat.add_left_cancel h2

theorem foldl_rowStep_getD_ne (w : Nat) (g : Image → Nat → Nat → Option Nat)
    (row col : Nat) (hcol : col < w) :
    ∀ (rows : List Nat) (s : ImgPair), (∀ r ∈ rows, r ≠ row) →
      (rows.foldl (rowStep w g) s).out.data.getD (row * w + col) 0 =
        s.out.data.getD (row * w + col) 0 := by
  intro rows
  induction rows with
  | nil => intro s _; rfl
  | cons r0 rows ih =>
    intro s h
    rw [List.foldl_cons, ih _ (fun r hr => h r (List.mem_cons_of_mem _ hr))]
    exact foldl_cellStep_getD_ne w g r0 _ (List.range w) s (fun c hc => by
      have hcw : c < w := List.mem_range.mp hc
      intro he
      exact h r0 (List.mem_cons_self _ _) (index_inj hcw hcol he).1)

theorem foldl_rowStep_getD_write (w : Nat) (g : Image → Nat → Nat → Option Nat)
    (row col v : Nat) (hcol : col < w) :
    ∀ (rows : List Nat) (s : ImgPair), rows.Nodup → row ∈ rows →
      g s.inp row col = some v → row * w + col < s.out.data.length →
      (rows.foldl (rowStep w g) s).out.data.getD (row * w + col) 0 = v := by
  intro rows
  induction rows with
  | nil =>
    intro s _ hmem _ _
    simp at hmem
  | cons r0 rows ih =>
    intro s hnd hmem hg hlen
    rw [List.foldl_cons]
    rcases List.mem_cons.mp hmem with heq | hmem2
    · subst heq
      rw [foldl_rowStep_getD_ne w g row col hcol rows _ (fun r hr => fun he =>
        (List.nodup_cons.mp hnd).1 (he ▸ hr))]
      exact foldl_cellStep_getD_write w g row col v (List.range w) s (List.nodup_range _)
        (List.mem_range.mpr hcol) hg hlen
    · apply ih (rowStep w g s r0) (List.nodup_cons.mp hnd).2 hmem2
      · rw [rowStep_inp]
        exact hg
      · rw [rowStep_out_length]
        exact hlen

theorem foldl_rowStep_getD_none (w : Nat) (g : Image → Nat → Nat → Option Nat)
    (row col : Nat) (hcol : col < w) :
    ∀ (rows : List Nat) (s : ImgPair), rows.Nodup → row ∈ rows →
      g s.inp row col = none →
      (rows.foldl (rowStep w g) s).out.data.getD (row * w + col) 0 =
        s.out.data.getD (row * w + col) 0 := by
  intro rows
  induction rows with
  | nil => intro s _ _ _; rfl
  | cons r0 rows ih =>
    intro s hnd hmem hg
    rw [List.foldl_cons]
    rcases List.mem_cons.mp hmem with heq | hmem2
    · subst heq
      rw [foldl_rowStep_getD_ne w g row col hcol rows _ (fun r hr => fun he =>
        (List.nodup_cons.mp hnd).1 (he ▸ hr))]
      exact foldl_cellStep_getD_none w g row col (List.range w) s (List.nodup_range _)
        (List.mem_range.mpr hcol) hg
    · have h0 : (rowStep w g s r0).out.data.getD (row * w + col) 0 =
          s.out.data.getD (row * w + col) 0 := by
        apply foldl_cellStep_getD_ne w g r0 _ (List.range w) s (fun c hc => by
          have hcw : c < w := List.mem_range.mp hc
          intro he
          exact (List.nodup_cons.mp hnd).1
            (((index_inj hcw hcol he).1) ▸ hmem2))
      rw [ih (rowStep w g s r0) (List.nodup_cons.mp hnd).2 hmem2 (by
        rw [rowStep_inp]; exact hg), h0]

/-- Reading an output cell that the transform loop wrote. -/
theorem transLoop_getD_some (w h : Nat) (g : Image → Nat → Nat → Option Nat) (s : ImgPair)
    (row col v : Nat) (hrow : row < h) (hcol : col < w)
    (hg : g s.inp row col = some v) (hlen : row * w + col < s.out.data.length) :
    (transLoop w h g s).out.data.getD (row * w + col) 0 = v :=
  foldl_rowStep_getD_write w g row col v hcol (List.range h) s (List.nodup_range _)
    (List.mem_range.mpr hrow) hg hlen

/-- Reading an output cell whose loop-body guard failed: it keeps its
pre-existing value. -/
theorem transLoop_getD_none (w h : Nat) (g : Image → Nat → Nat → Option Nat) (s : ImgPair)
    (row col : Nat) (hrow : row < h) (hcol : col < w) (hg : g s.inp row col = none) :
    (transLoop w h g s).out.data.getD (row * w + col) 0 =
      s.out.data.getD (row * w + col) 0 :=
  foldl_rowStep_getD_none w g row col hcol (List.range h) s (List.nodup_range _)
    (List.mem_range.mpr hrow) hg

/-! ### Characterizations of the individual transforms -/

theorem Image_ext {i1 i2 : Image} (hw : i1.width = i2.width) (hh : i1.height = i2.height)
    (hd : i1.data = i2.data) : i1 = i2 := by
  cases i1
  cases i2
  simp_all

theorem index_lt {w h row col : Nat} (hrow : row < h) (hcol : col < w) :
    row * w + col < w * h := by
  have h1 : row * w + col < (row + 1) * w := by
    have he : (row + 1) * w = row * w + w := by ring
    omega
  have h2 : (row + 1) * w ≤ h * w := Nat.mul_le_mul_right w hrow
  calc row * w + col < (row + 1) * w := h1
    _ ≤ h * w := h2
    _ = w * h := Nat.mul_comm h w

theorem getD_replicate {n i : Nat} (x : Nat) (h : i < n) :
    (List.replicate n x).getD i 0 = x := by
  simp [List.getD_eq_getElem?_getD, List.getElem?_replicate_of_lt h]

/-- The clamped bounds of blur_pixel are exactly the window of the
specification, clamped with max and min. -/
theorem blur_bounds_eq (img : Image) (row col d : Int) :
    blur_bounds img row col d =
      (max (row - d) 0, min (row + d) ((img.height : Int) - 1),
       max (col - d) 0, min (col + d) ((img.width : Int) - 1)) := by
  unfold blur_bounds
  simp only [Prod.mk.injEq]
  refine ⟨?_, ?_, ?_, ?_⟩ <;> split_ifs <;> omega

theorem rectSum_le (img : Image) (f : Nat → Nat) (rows cols : List Int) (k : Nat)
    (h : ∀ x, f x ≤ k) : rectSum img f rows cols ≤ k * (rows.length * cols.length) := by
  unfold rectSum
  have h1 := sum_map_le_mul rows (fun r => ((cols.map (fun c => f (pixAtI img r c))).sum))
    (k * cols.length)
    (fun r _ => sum_map_le_mul cols (fun c => f (pixAtI img r c)) k (fun c _ => h _))
  calc (rows.map (fun r => ((cols.map (fun c => f (pixAtI img r c))).sum))).sum
      ≤ k * cols.length * rows.length := h1
    _ = k * (rows.length * cols.length) := by ring

theorem windowSum_le (img : Image) (f : Nat → Nat) (row col d : Int) (k : Nat)
    (h : ∀ x, f x ≤ k) : windowSum img f row col d ≤ k * windowCount img row col d :=
  rectSum_le img f (windowRows img row d) (windowCols img col d) k h

theorem div_le_255 {s n : Nat} (h : s ≤ 255 * n) : s / n ≤ 255 := by
  rcases Nat.eq_zero_or_pos n with h0 | h0
  · subst h0
    simp
  · calc s / n ≤ 255 * n / n := Nat.div_le_div_right h
      _ = 255 := Nat.mul_div_cancel 255 h0

/-- Full closed form of blur_pixel when the channel sums over the clamped
window fit in the 32-bit accumulators. -/
theorem blur_pixel_eq (img : Image) (row col d : Int)
    (hN : 255 * windowCount img row col d < U32) :
    blur_pixel img row col d =
      make_pixel (windowSum img get_r row col d / windowCount img row col d)
        (windowSum img get_g row col d / windowCount img row col d)
        (windowSum img get_b row col d / windowCount img row col d)
        (get_a (pixAtI img row col)) := by
  have hU : U32 = 4294967296 := rfl
  have hbr := windowSum_le img get_r row col d 255 (fun x => by have := get_r_lt x; omega)
  have hbg := windowSum_le img get_g row col d 255 (fun x => by have := get_g_lt x; omega)
  have hbb := windowSum_le img get_b row col d 255 (fun x => by have := get_b_lt x; omega)
  simp only [blur_pixel, blur_bounds_eq, blur_totals_eq]
  simp only [windowSum, windowCount, windowRows, windowCols] at hN hbr hbg hbb ⊢
  rw [Nat.mod_eq_of_lt (by omega), Nat.mod_eq_of_lt (by omega),
    Nat.mod_eq_of_lt (by omega), Nat.mod_eq_of_lt (by omega)]

/-- The count accumulated by blur_pixel is the specification's window
count, reduced modulo 2 ^ 32. -/
theorem blur_count_eq (img : Image) (row col d : Int) :
    (blur_totals img (blur_bounds img row col d).1 (blur_bounds img row col d).2.1
      (blur_bounds img row col d).2.2.1 (blur_bounds img row col d).2.2.2).2.2.2 =
      windowCount img row col d % U32 := by
  simp only [blur_bounds_eq, blur_totals_eq, windowCount, windowRows, windowCols]

theorem windowCount_pos (img : Image) (row col d : Int) (hr0 : 0 ≤ row)
    (hr1 : row < (img.height : Int)) (hc0 : 0 ≤ col) (hc1 : col < (img.width : Int))
    (hd : 0 ≤ d) : 1 ≤ windowCount img row col d := by
  unfold windowCount windowRows windowCols
  rw [intRange_length, intRange_length]
  have h1 : 1 ≤ (min (row + d) ((img.height : Int) - 1) + 1 - max (row - d) 0).toNat := by
    omega
  have h2 : 1 ≤ (min (col + d) ((img.width : Int) - 1) + 1 - max (col - d) 0).toNat := by
    omega
  calc 1 = 1 * 1 := rfl
    _ ≤ _ := Nat.mul_le_mul h1 h2

theorem windowCount_le (img : Image) (row col d : Int) :
    windowCount img row col d ≤ img.height * img.width := by
  unfold windowCount windowRows windowCols
  rw [intRange_length, intRange_length]
  have h1 : (min (row + d) ((img.height : Int) - 1) + 1 - max (row - d) 0).toNat ≤
      img.height := by omega
  have h2 : (min (col + d) ((img.width : Int) - 1) + 1 - max (col - d) 0).toNat ≤
      img.width := by omega
  exact Nat.mul_le_mul h1 h2

/-- With a blur distance at least as large as both dimensions, the clamped
window is the whole image, whatever the exact distance. -/
theorem blur_pixel_saturated (img : Image) (row col : Nat) (d1 d2 : Int)
    (hrow : row < img.height) (hcol : col < img.width)
    (h1w : (img.width : Int) ≤ d1) (h1h : (img.height : Int) ≤ d1)
    (h2w : (img.width : Int) ≤ d2) (h2h : (img.height : Int) ≤ d2) :
    blur_pixel img (row : Int) (col : Int) d1 = blur_pixel img (row : Int) (col : Int) d2 := by
  have hb : blur_bounds img (row : Int) (col : Int) d1 =
      blur_bounds img (row : Int) (col : Int) d2 := by
    rw [blur_bounds_eq, blur_bounds_eq]
    simp only [Prod.mk.injEq]
    have hrh : (row : Int) < (img.height : Int) := by exact_mod_cast hrow
    have hcw : (col : Int) < (img.width : Int) := by exact_mod_cast hcol
    have hr0 : (0 : Int) ≤ (row : Int) := Int.natCast_nonneg row
    have hc0 : (0 : Int) ≤ (col : Int) := Int.natCast_nonneg col
    refine ⟨?_, ?_, ?_, ?_⟩ <;> omega
  unfold blur_pixel
  rw [hb]

/-- Reading an output cell written by imgproc_color_rot. -/
theorem color_rot_getD (ip ob : Image) (row col : Nat) (hrow : row < ip.height)
    (hcol : col < ip.width) (hlen : row * ip.width + col < ob.data.length) :
    (imgproc_color_rot ⟨ip, ob⟩).out.data.getD (row * ip.width + col) 0 =
      rotPixel (ip.data.getD (row * ip.width + col) 0) := by
  unfold imgproc_color_rot
  exact transLoop_getD_some ip.width ip.height _ ⟨ip, ob⟩ row col _ hrow hcol rfl hlen

theorem expand_candidates_len_le (inp : Image) (row col : Nat) :
    (expand_candidates inp row col).length ≤ 4 := by
  unfold expand_candidates
  by_cases h1 : col / 2 + 1 < inp.width <;> by_cases h2 : row / 2 + 1 < inp.height <;>
    simp [h1, h2] <;> split_ifs <;> simp

theorem expand_candidates_len_pos (inp : Image) (row col : Nat) :
    1 ≤ (expand_candidates inp row col).length := by
  unfold expand_candidates
  by_cases h1 : col / 2 + 1 < inp.width <;> by_cases h2 : row / 2 + 1 < inp.height <;>
    simp [h1, h2] <;> split_ifs <;> simp

/-! ### The claims -/

/-- Claim C10: for all channel values r, g, b, a in [0, 255] the pixel codec
round-trips exactly through make_pixel and the four extractors. -/
theorem C10_codec_roundtrip (r g b a : Nat) (hr : r ≤ 255) (hg : g ≤ 255) (hb : b ≤ 255)
    (ha : a ≤ 255) :
    get_r (make_pixel r g b a) = r ∧ get_g (make_pixel r g b a) = g ∧
    get_b (make_pixel r g b a) = b ∧ get_a (make_pixel r g b a) = a :=
  ⟨get_r_make_pixel (by omega) (by omega) (by omega) (by omega),
   get_g_make_pixel (by omega) (by omega) (by omega) (by omega),
   get_b_make_pixel (by omega) (by omega) (by omega) (by omega),
   get_a_make_pixel (by omega) (by omega) (by omega) (by omega)⟩

/-- Witness for C10 at the concrete channel values (17, 255, 0, 128). -/
theorem C10_witness :
    get_r (make_pixel 17 255 0 128) = 17 ∧ get_g (make_pixel 17 255 0 128) = 255 ∧
    get_b (make_pixel 17 255 0 128) = 0 ∧ get_a (make_pixel 17 255 0 128) = 128 :=
  C10_codec_roundtrip 17 255 0 128 (by norm_num) (by norm_num) (by norm_num) (by norm_num)

/-- Claim C4: for every pixel of the input raster, the colorRotate output at
the same coordinate has red equal to the input blue, green equal to the
input red, blue equal to the input green, and alpha equal to the input
alpha. -/
theorem C4_color_rotate_channels (inp out : Image) (row col : Nat)
    (hrow : row < inp.height) (hcol : col < inp.width)
    (hol : out.data.length = inp.width * inp.height) :
    get_r ((imgproc_color_rot ⟨inp, out⟩).out.data.getD (row * inp.width + col) 0) =
      get_b (inp.data.getD (row * inp.width + col) 0) ∧
    get_g ((imgproc_color_rot ⟨inp, out⟩).out.data.getD (row * inp.width + col) 0) =
      get_r (inp.data.getD (row * inp.width + col) 0) ∧
    get_b ((imgproc_color_rot ⟨inp, out⟩).out.data.getD (row * inp.width + col) 0) =
      get_g (inp.data.getD (row * inp.width + col) 0) ∧
    get_a ((imgproc_color_rot ⟨inp, out⟩).out.data.getD (row * inp.width + col) 0) =
      get_a (inp.data.getD (row * inp.width + col) 0) := by
  have hlen : row * inp.width + col < out.data.length := by
    rw [hol]
    exact index_lt hrow hcol
  rw [color_rot_getD inp out row col hrow hcol hlen]
  unfold rotPixel
  exact ⟨get_r_make_pixel (get_b_lt _) (get_r_lt _) (get_g_lt _) (get_a_lt _),
    get_g_make_pixel (get_b_lt _) (get_r_lt _) (get_g_lt _) (get_a_lt _),
    get_b_make_pixel (get_b_lt _) (get_r_lt _) (get_g_lt _) (get_a_lt _),
    get_a_make_pixel (get_b_lt _) (get_r_lt _) (get_g_lt _) (get_a_lt _)⟩

/-- Witness for C4 on a 1 by 1 raster holding the pixel 0xAABBCCDD. -/
theorem C4_witness :
    get_r ((imgproc_color_rot ⟨⟨1, 1, [0xAABBCCDD]⟩, ⟨1, 1, [0]⟩⟩).out.data.getD
        (0 * (1 : Nat) + 0) 0) =
      get_b ((⟨1, 1, [0xAABBCCDD]⟩ : Image).data.getD (0 * (1 : Nat) + 0) 0) ∧
    get_g ((imgproc_color_rot ⟨⟨1, 1, [0xAABBCCDD]⟩, ⟨1, 1, [0]⟩⟩).out.data.getD
        (0 * (1 : Nat) + 0) 0) =
      get_r ((⟨1, 1, [0xAABBCCDD]⟩ : Image).data.getD (0 * (1 : Nat) + 0) 0) ∧
    get_b ((imgproc_color_rot ⟨⟨1, 1, [0xAABBCCDD]⟩, ⟨1, 1, [0]⟩⟩).out.data.getD
        (0 * (1 : Nat) + 0) 0) =
      get_g ((⟨1, 1, [0xAABBCCDD]⟩ : Image).data.getD (0 * (1 : Nat) + 0) 0) ∧
    get_a ((imgproc_color_rot ⟨⟨1, 1, [0xAABBCCDD]⟩, ⟨1, 1, [0]⟩⟩).out.data.getD
        (0 * (1 : Nat) + 0) 0) =
      get_a ((⟨1, 1, [0xAABBCCDD]⟩ : Image).data.getD (0 * (1 : Nat) + 0) 0) :=
  C4_color_rotate_channels ⟨1, 1, [0xAABBCCDD]⟩ ⟨1, 1, [0]⟩ 0 0 (by norm_num) (by norm_num)
    (by norm_num)

/-- Counterexample to claim C7 as stated: make_pixel does not reduce every
argument modulo 256; an oversized green value lands in the red field. -/
theorem C7_counterexample :
    make_pixel 0 256 0 0 ≠ make_pixel (0 % 256) (256 % 256) (0 % 256) (0 % 256) := by
  decide

/-- Claim C7 (amended): makePixel truncates the red argument to its low 8
bits, but green is only reduced modulo 2 ^ 16, blue modulo 2 ^ 24 and alpha
modulo 2 ^ 32, so bits 8 and above of green, blue or alpha spill into the
higher channels instead of being ignored. -/
theorem C7_make_pixel_truncation (r g b a : Nat) :
    make_pixel r g b a = make_pixel (r % 256) (g % 65536) (b % 16777216) (a % 4294967296) := by
  have p24 : (2 : Nat) ^ 24 = 16777216 := by norm_num
  have p16 : (2 : Nat) ^ 16 = 65536 := by norm_num
  have p8 : (2 : Nat) ^ 8 = 256 := by norm_num
  have hU : U32 = 4294967296 := rfl
  unfold make_pixel
  simp only [Nat.shiftLeft_eq, p24, p16, p8, hU]
  have e1 : r % 4294967296 * 16777216 % 4294967296 =
      r % 256 % 4294967296 * 16777216 % 4294967296 := by omega
  have e2 : g % 4294967296 * 65536 % 4294967296 =
      g % 65536 % 4294967296 * 65536 % 4294967296 := by omega
  have e3 : b % 4294967296 * 256 % 4294967296 =
      b % 16777216 % 4294967296 * 256 % 4294967296 := by omega
  rw [e1, e2, e3]
  congr 1
  omega

/-- Claim C8: no transform mutates its input raster: after any of the four
calls the input component of the state, with its width, height and pixels,
is exactly what it was before. -/
theorem C8_input_unchanged (s : ImgPair) (xfac yfac : Nat) (d : Int) :
    (imgproc_squash s xfac yfac).inp = s.inp ∧ (imgproc_color_rot s).inp = s.inp ∧
    (imgproc_blur s d).inp = s.inp ∧ (imgproc_expand s).inp = s.inp :=
  ⟨transLoop_inp _ _ _ _, transLoop_inp _ _ _ _, transLoop_inp _ _ _ _, transLoop_inp _ _ _ _⟩

/-- Claim C9: the count blur_pixel divides by is at least 1 for every
in-bounds pixel of a raster whose pixel count fits the 32-bit counter, and
every candidate list imgproc_expand hands to avg_pixels has at least one
entry, so no division by zero is reachable. -/
theorem C9_positive_divisors :
    (∀ (img : Image) (row col : Nat) (d : Int), row < img.height → col < img.width →
      0 ≤ d → img.width * img.height < U32 →
      1 ≤ (blur_totals img (blur_bounds img (row : Int) (col : Int) d).1
            (blur_bounds img (row : Int) (col : Int) d).2.1
            (blur_bounds img (row : Int) (col : Int) d).2.2.1
            (blur_bounds img (row : Int) (col : Int) d).2.2.2).2.2.2) ∧
    (∀ (inp : Image) (row col : Nat), 1 ≤ (expand_candidates inp row col).length) := by
  constructor
  · intro img row col d hrow hcol hd hsz
    rw [blur_count_eq]
    have hpos := windowCount_pos img (row : Int) (col : Int) d (Int.natCast_nonneg row)
      (by exact_mod_cast hrow) (Int.natCast_nonneg col) (by exact_mod_cast hcol) hd
    have hlt : windowCount img (row : Int) (col : Int) d < U32 := by
      calc windowCount img (row : Int) (col : Int) d
          ≤ img.height * img.width := windowCount_le img _ _ d
        _ = img.width * img.height := Nat.mul_comm _ _
        _ < U32 := hsz
    rw [Nat.mod_eq_of_lt hlt]
    exact hpos
  · intro inp row col
    exact expand_candidates_len_pos inp row col

/-- Witness for C9 on a 1 by 1 raster, blur distance 0 and expand cell (0, 1). -/
theorem C9_witness :
    1 ≤ (blur_totals ⟨1, 1, [0]⟩ (blur_bounds ⟨1, 1, [0]⟩ 0 0 0).1
          (blur_bounds ⟨1, 1, [0]⟩ 0 0 0).2.1 (blur_bounds ⟨1, 1, [0]⟩ 0 0 0).2.2.1
          (blur_bounds ⟨1, 1, [0]⟩ 0 0 0).2.2.2).2.2.2 ∧
    1 ≤ (expand_candidates ⟨1, 1, [0]⟩ 0 1).length :=
  ⟨C9_positive_divisors.1 ⟨1, 1, [0]⟩ 0 0 0 (by norm_num) (by norm_num) (by norm_num)
      (by norm_num [U32]),
   C9_positive_divisors.2 ⟨1, 1, [0]⟩ 0 1⟩

/-- Claim C3: squash copies the input pixel at (row * yFactor, col * xFactor)
to every output cell whose source is in bounds and leaves every other output
cell at its pre-existing value; on the specification's 3 by 3 example with
xfac 2 and yfac 1 it produces exactly the listed 2 by 3 raster. -/
theorem C3_squash_point_sampling :
    (∀ (inp out : Image) (xfac yfac row col : Nat), 0 < xfac → 0 < yfac →
      row < out.height → col < out.width → out.data.length = out.width * out.height →
      (imgproc_squash ⟨inp, out⟩ xfac yfac).out.data.getD (row * out.width + col) 0 =
        if row * yfac < inp.height ∧ col * xfac < inp.width then
          inp.data.getD (row * yfac * inp.width + col * xfac) 0
        else out.data.getD (row * out.width + col) 0) ∧
    (imgproc_squash ⟨squashIn3, squashOut23⟩ 2 1).out.data =
      [0xFF000080, 0x0000FF80, 0x80800080, 0x00000080, 0xFF00FF80, 0xFFFF0080] := by
  constructor
  · intro inp out xfac yfac row col hx hy hrow hcol hol
    have hlen : row * out.width + col < out.data.length := by
      rw [hol]
      exact index_lt hrow hcol
    by_cases hc : row * yfac < inp.height ∧ col * xfac < inp.width
    · rw [if_pos hc]
      unfold imgproc_squash
      refine transLoop_getD_some out.width out.height _ ⟨inp, out⟩ row col _ hrow hcol ?_ hlen
      show (if row * yfac < inp.height ∧ col * xfac < inp.width then
        some (inp.data.getD (compute_index inp (row * yfac) (col * xfac)) 0) else none) =
          some (inp.data.getD (row * yfac * inp.width + col * xfac) 0)
      rw [if_pos hc]
      rfl
    · rw [if_neg hc]
      unfold imgproc_squash
      refine transLoop_getD_none out.width out.height _ ⟨inp, out⟩ row col hrow hcol ?_
      show (if row * yfac < inp.height ∧ col * xfac < inp.width then
        some (inp.data.getD (compute_index inp (row * yfac) (col * xfac)) 0) else none) = none
      rw [if_neg hc]
  · decide

/-- Witness for the universally quantified part of C3 on 1 by 1 rasters. -/
theorem C3_witness :
    (imgproc_squash ⟨⟨1, 1, [7]⟩, ⟨1, 1, [9]⟩⟩ 1 1).out.data.getD (0 * (1 : Nat) + 0) 0 =
      if 0 * 1 < (⟨1, 1, [7]⟩ : Image).height ∧ 0 * 1 < (⟨1, 1, [7]⟩ : Image).width then
        (⟨1, 1, [7]⟩ : Image).data.getD (0 * 1 * (⟨1, 1, [7]⟩ : Image).width + 0 * 1) 0
      else (⟨1, 1, [9]⟩ : Image).data.getD (0 * (1 : Nat) + 0) 0 :=
  C3_squash_point_sampling.1 ⟨1, 1, [7]⟩ ⟨1, 1, [9]⟩ 1 1 0 0 (by norm_num) (by norm_num)
    (by norm_num) (by norm_num) (by norm_num)

theorem getElem_eq_getD {l : List Nat} {n : Nat} (hn : n < l.length) : l[n] = l.getD n 0 := by
  simp [List.getD_eq_getElem?_getD, List.getElem?_eq_getElem hn]

theorem pixAtI_natCast (img : Image) (row col : Nat) :
    pixAtI img (row : Int) (col : Int) = img.data.getD (row * img.width + col) 0 := by
  unfold pixAtI
  have h1 : ((row : Int) * (img.width : Int) + (col : Int)) =
      ((row * img.width + col : Nat) : Int) := by push_cast; ring
  rw [h1, Int.toNat_natCast]

/-- Claim C2: with an output raster of exactly twice the input's width and
height, the expand output at (i, j) is the input pixel at (i/2, j/2) when i
and j are both even, and otherwise the per-channel truncating average,
alpha included, of the in-bounds candidate subset listed by the
specification. -/
theorem C2_expand_parity_average (inp out : Image) (i j : Nat)
    (hw : 0 < inp.width) (hh : 0 < inp.height)
    (how : out.width = 2 * inp.width) (hoh : out.height = 2 * inp.height)
    (hol : out.data.length = out.width * out.height)
    (hi : i < out.height) (hj : j < out.width) :
    (imgproc_expand ⟨inp, out⟩).out.data.getD (i * out.width + j) 0 =
      if i % 2 = 0 ∧ j % 2 = 0 then inp.data.getD (i / 2 * inp.width + j / 2) 0
      else
        make_pixel
          (((expandCandidatesSpec inp i j).map get_r).sum / (expandCandidatesSpec inp i j).length)
          (((expandCandidatesSpec inp i j).map get_g).sum / (expandCandidatesSpec inp i j).length)
          (((expandCandidatesSpec inp i j).map get_b).sum / (expandCandidatesSpec inp i j).length)
          (((expandCandidatesSpec inp i j).map get_a).sum /
            (expandCandidatesSpec inp i j).length) := by
  have hlen : i * out.width + j < out.data.length := by
    rw [hol]
    exact index_lt hi hj
  have hcell : (imgproc_expand ⟨inp, out⟩).out.data.getD (i * out.width + j) 0 =
      expand_cell inp i j := by
    unfold imgproc_expand
    exact transLoop_getD_some out.width out.height _ ⟨inp, out⟩ i j _ hi hj rfl hlen
  rw [hcell]
  unfold expand_cell
  by_cases hc : i % 2 = 0 ∧ j % 2 = 0
  · rw [if_pos hc, if_pos hc]
    rfl
  · rw [if_neg hc, if_neg hc]
    have hcand : expand_candidates inp i j = expandCandidatesSpec inp i j := by
      unfold expand_candidates expandCandidatesSpec
      rcases Nat.mod_two_eq_zero_or_one i with hi2 | hi2 <;>
        rcases Nat.mod_two_eq_zero_or_one j with hj2 | hj2
      · exact absurd ⟨hi2, hj2⟩ hc
      · rw [if_pos ⟨hi2, hj2⟩]
        simp [hi2, hj2]
      · rw [if_neg (by simp [hi2]), if_pos ⟨hi2, hj2⟩]
        simp [hi2, hj2]
      · rw [if_neg (by simp [hi2]), if_neg (by simp [hj2])]
        simp [hi2, hj2, and_comm]
    show avg_pixels (expand_candidates inp i j) (expand_candidates inp i j).length = _
    rw [hcand]
    have hle : (expandCandidatesSpec inp i j).length ≤ 4 := by
      rw [← hcand]
      exact expand_candidates_len_le inp i j
    have hU : U32 = 4294967296 := rfl
    exact avg_pixels_eq (expandCandidatesSpec inp i j) (by omega)

/-- Witness for C2: the odd-odd output cell (1, 1) of the expansion of a
1 by 1 raster. -/
theorem C2_witness :
    (imgproc_expand ⟨⟨1, 1, [0xAABBCCDD]⟩, ⟨2, 2, [0, 0, 0, 0]⟩⟩).out.data.getD
        (1 * (2 : Nat) + 1) 0 =
      if 1 % 2 = 0 ∧ 1 % 2 = 0 then
        (⟨1, 1, [0xAABBCCDD]⟩ : Image).data.getD (1 / 2 * (1 : Nat) + 1 / 2) 0
      else
        make_pixel
          (((expandCandidatesSpec ⟨1, 1, [0xAABBCCDD]⟩ 1 1).map get_r).sum /
            (expandCandidatesSpec ⟨1, 1, [0xAABBCCDD]⟩ 1 1).length)
          (((expandCandidatesSpec ⟨1, 1, [0xAABBCCDD]⟩ 1 1).map get_g).sum /
            (expandCandidatesSpec ⟨1, 1, [0xAABBCCDD]⟩ 1 1).length)
          (((expandCandidatesSpec ⟨1, 1, [0xAABBCCDD]⟩ 1 1).map get_b).sum /
            (expandCandidatesSpec ⟨1, 1, [0xAABBCCDD]⟩ 1 1).length)
          (((expandCandidatesSpec ⟨1, 1, [0xAABBCCDD]⟩ 1 1).map get_a).sum /
            (expandCandidatesSpec ⟨1, 1, [0xAABBCCDD]⟩ 1 1).length) :=
  C2_expand_parity_average ⟨1, 1, [0xAABBCCDD]⟩ ⟨2, 2, [0, 0, 0, 0]⟩ 1 1 (by norm_num)
    (by norm_num) (by norm_num) (by norm_num) (by norm_num) (by norm_num) (by norm_num)

/-- Claim C6: for a raster with positive dimensions and two blur distances
both at least as large as each image dimension, the blur outputs are
identical rasters. -/
theorem C6_blur_saturation (inp out : Image) (d1 d2 : Int)
    (hw : 0 < inp.width) (hh : 0 < inp.height)
    (hol : out.data.length = inp.width * inp.height)
    (h1w : (inp.width : Int) ≤ d1) (h1h : (inp.height : Int) ≤ d1)
    (h2w : (inp.width : Int) ≤ d2) (h2h : (inp.height : Int) ≤ d2) :
    (imgproc_blur ⟨inp, out⟩ d1).out = (imgproc_blur ⟨inp, out⟩ d2).out := by
  apply Image_ext
  · rw [show (imgproc_blur ⟨inp, out⟩ d1).out.width = out.width from
      transLoop_out_width _ _ _ _,
      show (imgproc_blur ⟨inp, out⟩ d2).out.width = out.width from transLoop_out_width _ _ _ _]
  · rw [show (imgproc_blur ⟨inp, out⟩ d1).out.height = out.height from
      transLoop_out_height _ _ _ _,
      show (imgproc_blur ⟨inp, out⟩ d2).out.height = out.height from
      transLoop_out_height _ _ _ _]
  · have hl1 : (imgproc_blur ⟨inp, out⟩ d1).out.data.length = out.data.length :=
      transLoop_out_length _ _ _ _
    have hl2 : (imgproc_blur ⟨inp, out⟩ d2).out.data.length = out.data.length :=
      transLoop_out_length _ _ _ _
    apply List.ext_getElem (by rw [hl1, hl2])
    intro n hn1 hn2
    rw [getElem_eq_getD hn1, getElem_eq_getD hn2]
    rw [hl1, hol] at hn1
    have hrow : n / inp.width < inp.height := by
      rw [Nat.div_lt_iff_lt_mul hw]
      rw [Nat.mul_comm] at hn1
      exact hn1
    have hcol : n % inp.width < inp.width := Nat.mod_lt n hw
    have hidx : n = n / inp.width * inp.width + n % inp.width := by
      rw [Nat.mul_comm]
      exact (Nat.div_add_mod n inp.width).symm
    have hlen : n / inp.width * inp.width + n % inp.width < out.data.length := by
      rw [hol]
      exact index_lt hrow hcol
    rw [hidx]
    have hb1 : (imgproc_blur ⟨inp, out⟩ d1).out.data.getD
        (n / inp.width * inp.width + n % inp.width) 0 =
        blur_pixel inp ((n / inp.width : Nat) : Int) ((n % inp.width : Nat) : Int) d1 := by
      unfold imgproc_blur
      exact transLoop_getD_some inp.width inp.height _ ⟨inp, out⟩ _ _ _ hrow hcol rfl hlen
    have hb2 : (imgproc_blur ⟨inp, out⟩ d2).out.data.getD
        (n / inp.width * inp.width + n % inp.width) 0 =
        blur_pixel inp ((n / inp.width : Nat) : Int) ((n % inp.width : Nat) : Int) d2 := by
      unfold imgproc_blur
      exact transLoop_getD_some inp.width inp.height _ ⟨inp, out⟩ _ _ _ hrow hcol rfl hlen
    rw [hb1, hb2]
    exact blur_pixel_saturated inp _ _ d1 d2 hrow hcol h1w h1h h2w h2h

/-- Witness for C6: a 1 by 2 raster blurred with distances 2 and 7. -/
theorem C6_witness :
    (imgproc_blur ⟨⟨1, 2, [5, 6]⟩, ⟨1, 2, [0, 0]⟩⟩ 2).out =
      (imgproc_blur ⟨⟨1, 2, [5, 6]⟩, ⟨1, 2, [0, 0]⟩⟩ 7).out :=
  C6_blur_saturation ⟨1, 2, [5, 6]⟩ ⟨1, 2, [0, 0]⟩ 2 7 (by norm_num) (by norm_num)
    (by norm_num) (by decide) (by decide) (by decide) (by decide)

theorem color_rot_out_dims (ip ob : Image) :
    (imgproc_color_rot ⟨ip, ob⟩).out.width = ob.width ∧
    (imgproc_color_rot ⟨ip, ob⟩).out.height = ob.height ∧
    (imgproc_color_rot ⟨ip, ob⟩).out.data.length = ob.data.length :=
  ⟨transLoop_out_width _ _ _ _, transLoop_out_height _ _ _ _, transLoop_out_length _ _ _ _⟩

theorem color_rot_out_spec (ip ob : Image) (w h : Nat) (hiw : ip.width = w)
    (hih : ip.height = h) (hobl : ob.data.length = w * h) (row col : Nat)
    (hrow : row < h) (hcol : col < w) :
    (imgproc_color_rot ⟨ip, ob⟩).out.data.getD (row * w + col) 0 =
      rotPixel (ip.data.getD (row * w + col) 0) := by
  subst hiw
  subst hih
  exact color_rot_getD ip ob row col hrow hcol (by rw [hobl]; exact index_lt hrow hcol)

/-- Claim C5: three successive color rotations, each into a fresh raster of
the input's dimensions, reproduce the original raster exactly. Pixels are
assumed to be genuine 32-bit words, that is, four channel values in
[0, 255]. -/
theorem C5_triple_rotate_identity (img o1 o2 o3 : Image)
    (hvalid : ∀ p ∈ img.data, p < U32)
    (hw : 0 < img.width) (hh : 0 < img.height)
    (hil : img.data.length = img.width * img.height)
    (h1w : o1.width = img.width) (h1h : o1.height = img.height)
    (h1l : o1.data.length = img.width * img.height)
    (h2w : o2.width = img.width) (h2h : o2.height = img.height)
    (h2l : o2.data.length = img.width * img.height)
    (h3w : o3.width = img.width) (h3h : o3.height = img.height)
    (h3l : o3.data.length = img.width * img.height) :
    (imgproc_color_rot ⟨(imgproc_color_rot ⟨(imgproc_color_rot ⟨img, o1⟩).out, o2⟩).out,
      o3⟩).out = img := by
  obtain ⟨d1w, d1h, d1l⟩ := color_rot_out_dims img o1
  obtain ⟨d2w, d2h, d2l⟩ := color_rot_out_dims (imgproc_color_rot ⟨img, o1⟩).out o2
  obtain ⟨d3w, d3h, d3l⟩ :=
    color_rot_out_dims (imgproc_color_rot ⟨(imgproc_color_rot ⟨img, o1⟩).out, o2⟩).out o3
  apply Image_ext
  · rw [d3w, h3w]
  · rw [d3h, h3h]
  · apply List.ext_getElem (by rw [d3l, h3l, hil])
    intro n hn1 hn2
    rw [getElem_eq_getD hn1, getElem_eq_getD hn2]
    rw [hil] at hn2
    have hrow : n / img.width < img.height := by
      rw [Nat.div_lt_iff_lt_mul hw]
      rw [Nat.mul_comm] at hn2
      exact hn2
    have hcol : n % img.width < img.width := Nat.mod_lt n hw
    have hidx : n = n / img.width * img.width + n % img.width := by
      rw [Nat.mul_comm]
      exact (Nat.div_add_mod n img.width).symm
    rw [hidx]
    have k1 : (imgproc_color_rot ⟨img, o1⟩).out.data.getD
        (n / img.width * img.width + n % img.width) 0 =
        rotPixel (img.data.getD (n / img.width * img.width + n % img.width) 0) :=
      color_rot_out_spec img o1 img.width img.height rfl rfl h1l _ _ hrow hcol
    have k2 : (imgproc_color_rot ⟨(imgproc_color_rot ⟨img, o1⟩).out, o2⟩).out.data.getD
        (n / img.width * img.width + n % img.width) 0 =
        rotPixel ((imgproc_color_rot ⟨img, o1⟩).out.data.getD
          (n / img.width * img.width + n % img.width) 0) :=
      color_rot_out_spec _ o2 img.width img.height (d1w.trans h1w) (d1h.trans h1h) h2l _ _
        hrow hcol
    have k3 : (imgproc_color_rot ⟨(imgproc_color_rot
        ⟨(imgproc_color_rot ⟨img, o1⟩).out, o2⟩).out, o3⟩).out.data.getD
        (n / img.width * img.width + n % img.width) 0 =
        rotPixel ((imgproc_color_rot ⟨(imgproc_color_rot ⟨img, o1⟩).out, o2⟩).out.data.getD
          (n / img.width * img.width + n % img.width) 0) :=
      color_rot_out_spec _ o3 img.width img.height (d2w.trans h2w) (d2h.trans h2h) h3l _ _
        hrow hcol
    rw [k3, k2, k1]
    have hmem : img.data.getD (n / img.width * img.width + n % img.width) 0 ∈ img.data := by
      rw [← hidx, ← getElem_eq_getD (hil ▸ hn2 : n < img.data.length)]
      exact List.getElem_mem _
    exact rotPixel_three _ (hvalid _ hmem)

/-- Witness for C5 on a 1 by 1 raster holding pixel 0xAABBCCDD. -/
theorem C5_witness :
    (imgproc_color_rot ⟨(imgproc_color_rot ⟨(imgproc_color_rot
        ⟨⟨1, 1, [0xAABBCCDD]⟩, ⟨1, 1, [0]⟩⟩).out, ⟨1, 1, [0]⟩⟩).out,
      ⟨1, 1, [0]⟩⟩).out = ⟨1, 1, [0xAABBCCDD]⟩ :=
  C5_triple_rotate_identity ⟨1, 1, [0xAABBCCDD]⟩ ⟨1, 1, [0]⟩ ⟨1, 1, [0]⟩ ⟨1, 1, [0]⟩
    (by intro p hp; simp at hp; simp [hp, U32]) (by norm_num) (by norm_num) (by norm_num)
    (by norm_num) (by norm_num) (by norm_num) (by norm_num) (by norm_num) (by norm_num)
    (by norm_num) (by norm_num) (by norm_num)

/-- Claim C1 (amended): for every in-bounds coordinate of a positive-size
raster, every blur distance at least 0, and a properly sized output buffer,
provided the clamped window holds at most 16843009 pixels (so that no
32-bit channel accumulator can overflow), the blur output pixel at
(row, col) has red, green and blue equal to the window channel sums divided
by the exact window pixel count with truncating division, and alpha equal
to the input alpha at (row, col). -/
theorem C1_blur_window_average (inp out : Image) (row col : Nat) (d : Int)
    (hw : 0 < inp.width) (hh : 0 < inp.height)
    (hrow : row < inp.height) (hcol : col < inp.width) (hd : 0 ≤ d)
    (hol : out.data.length = inp.width * inp.height)
    (hN : windowCount inp (row : Int) (col : Int) d ≤ 16843009) :
    get_r ((imgproc_blur ⟨inp, out⟩ d).out.data.getD (row * inp.width + col) 0) =
      windowSum inp get_r (row : Int) (col : Int) d /
        windowCount inp (row : Int) (col : Int) d ∧
    get_g ((imgproc_blur ⟨inp, out⟩ d).out.data.getD (row * inp.width + col) 0) =
      windowSum inp get_g (row : Int) (col : Int) d /
        windowCount inp (row : Int) (col : Int) d ∧
    get_b ((imgproc_blur ⟨inp, out⟩ d).out.data.getD (row * inp.width + col) 0) =
      windowSum inp get_b (row : Int) (col : Int) d /
        windowCount inp (row : Int) (col : Int) d ∧
    get_a ((imgproc_blur ⟨inp, out⟩ d).out.data.getD (row * inp.width + col) 0) =
      get_a (inp.data.getD (row * inp.width + col) 0) := by
  have hlen : row * inp.width + col < out.data.length := by
    rw [hol]
    exact index_lt hrow hcol
  have hpix : (imgproc_blur ⟨inp, out⟩ d).out.data.getD (row * inp.width + col) 0 =
      blur_pixel inp (row : Int) (col : Int) d := by
    unfold imgproc_blur
    exact transLoop_getD_some inp.width inp.height _ ⟨inp, out⟩ row col _ hrow hcol rfl hlen
  have hU : U32 = 4294967296 := rfl
  have hNlt : 255 * windowCount inp (row : Int) (col : Int) d < U32 := by omega
  have hbr := windowSum_le inp get_r (row : Int) (col : Int) d 255
    (fun x => by have := get_r_lt x; omega)
  have hbg := windowSum_le inp get_g (row : Int) (col : Int) d 255
    (fun x => by have := get_g_lt x; omega)
  have hbb := windowSum_le inp get_b (row : Int) (col : Int) d 255
    (fun x => by have := get_b_lt x; omega)
  have qr := div_le_255 hbr
  have qg := div_le_255 hbg
  have qb := div_le_255 hbb
  rw [hpix, blur_pixel_eq inp (row : Int) (col : Int) d hNlt]
  refine ⟨?_, ?_, ?_, ?_⟩
  · exact get_r_make_pixel (by omega) (by omega) (by omega) (get_a_lt _)
  · exact get_g_make_pixel (by omega) (by omega) (by omega) (get_a_lt _)
  · exact get_b_make_pixel (by omega) (by omega) (by omega) (get_a_lt _)
  · rw [get_a_make_pixel (by omega) (by omega) (by omega) (get_a_lt _), pixAtI_natCast]

/-- Witness for C1 at the cell (0, 1) of a 2 by 2 raster with blur
distance 1. -/
theorem C1_witness :
    get_r ((imgproc_blur ⟨⟨2, 2, [0x01020304, 0x05060708, 0x090A0B0C, 0x0D0E0F10]⟩,
        ⟨2, 2, [0, 0, 0, 0]⟩⟩ 1).out.data.getD (0 * (2 : Nat) + 1) 0) =
      windowSum ⟨2, 2, [0x01020304, 0x05060708, 0x090A0B0C, 0x0D0E0F10]⟩ get_r 0 1 1 /
        windowCount ⟨2, 2, [0x01020304, 0x05060708, 0x090A0B0C, 0x0D0E0F10]⟩ 0 1 1 ∧
    get_g ((imgproc_blur ⟨⟨2, 2, [0x01020304, 0x05060708, 0x090A0B0C, 0x0D0E0F10]⟩,
        ⟨2, 2, [0, 0, 0, 0]⟩⟩ 1).out.data.getD (0 * (2 : Nat) + 1) 0) =
      windowSum ⟨2, 2, [0x01020304, 0x05060708, 0x090A0B0C, 0x0D0E0F10]⟩ get_g 0 1 1 /
        windowCount ⟨2, 2, [0x01020304, 0x05060708, 0x090A0B0C, 0x0D0E0F10]⟩ 0 1 1 ∧
    get_b ((imgproc_blur ⟨⟨2, 2, [0x01020304, 0x05060708, 0x090A0B0C, 0x0D0E0F10]⟩,
        ⟨2, 2, [0, 0, 0, 0]⟩⟩ 1).out.data.getD (0 * (2 : Nat) + 1) 0) =
      windowSum ⟨2, 2, [0x01020304, 0x05060708, 0x090A0B0C, 0x0D0E0F10]⟩ get_b 0 1 1 /
        windowCount ⟨2, 2, [0x01020304, 0x05060708, 0x090A0B0C, 0x0D0E0F10]⟩ 0 1 1 ∧
    get_a ((imgproc_blur ⟨⟨2, 2, [0x01020304, 0x05060708, 0x090A0B0C, 0x0D0E0F10]⟩,
        ⟨2, 2, [0, 0, 0, 0]⟩⟩ 1).out.data.getD (0 * (2 : Nat) + 1) 0) =
      get_a ((⟨2, 2, [0x01020304, 0x05060708, 0x090A0B0C, 0x0D0E0F10]⟩ : Image).data.getD
        (0 * (2 : Nat) + 1) 0) :=
  C1_blur_window_average ⟨2, 2, [0x01020304, 0x05060708, 0x090A0B0C, 0x0D0E0F10]⟩
    ⟨2, 2, [0, 0, 0, 0]⟩ 0 1 1 (by norm_num) (by norm_num) (by norm_num) (by norm_num)
    (by norm_num) (by norm_num) (by decide)

/-- Unconditional closed form of blur_pixel: each channel is the window sum
reduced modulo 2 ^ 32, divided by the window count reduced modulo 2 ^ 32. -/
theorem blur_pixel_totals_form (img : Image) (row col d : Int) :
    blur_pixel img row col d =
      make_pixel (windowSum img get_r row col d % U32 / (windowCount img row col d % U32))
        (windowSum img get_g row col d % U32 / (windowCount img row col d % U32))
        (windowSum img get_b row col d % U32 / (windowCount img row col d % U32))
        (get_a (pixAtI img row col)) := by
  simp only [blur_pixel, blur_bounds_eq, blur_totals_eq, windowSum, windowCount, windowRows,
    windowCols]

/-- Unconditional unfolding equation for the window pixel count. -/
theorem windowCount_eq (img : Image) (row col d : Int) :
    windowCount img row col d =
      (windowRows img row d).length * (windowCols img col d).length := rfl

/-- Reading a blur output cell, stated for any raster pair. -/
theorem imgproc_blur_getD (inp out : Image) (d : Int) (row col : Nat)
    (hrow : row < inp.height) (hcol : col < inp.width)
    (hlen : row * inp.width + col < out.data.length) :
    (imgproc_blur ⟨inp, out⟩ d).out.data.getD (row * inp.width + col) 0 =
      blur_pixel inp (row : Int) (col : Int) d := by
  unfold imgproc_blur
  exact transLoop_getD_some inp.width inp.height _ ⟨inp, out⟩ row col _ hrow hcol rfl hlen

/-- Counterexample to claim C1 as stated: on a one-row raster of 16843010
pure-red pixels with a full-width blur window, the 32-bit red accumulator
wraps around, so the output red channel is 0 while the window average of
the red channel demanded by the claim is 255. -/
theorem C1_counterexample :
    get_r ((imgproc_blur ⟨blurBigImg, blurBigOut⟩ 16843010).out.data.getD 0 0) = 0 ∧
    windowSum blurBigImg get_r 0 0 16843010 / windowCount blurBigImg 0 0 16843010 = 255 := by
  have hr0 : intRange 0 0 = [(0 : Int)] := by decide
  have hc1 : (intRange 0 0).length = 1 := by rw [hr0]; rfl
  have hcl : (intRange 0 16843009).length = 16843010 := by
    rw [intRange_length]
    decide
  have hpixc : ∀ c ∈ intRange 0 16843009, pixAtI blurBigImg 0 c = 0xFF000000 := by
    intro c hc
    rw [mem_intRange] at hc
    unfold pixAtI
    have hidx : ((0 : Int) * (blurBigImg.width : Int) + c).toNat = c.toNat := by
      rw [Int.zero_mul, Int.zero_add]
    rw [hidx]
    show (List.replicate 16843010 0xFF000000).getD c.toNat 0 = 0xFF000000
    exact getD_replicate _ (by omega)
  have hwr : windowRows blurBigImg 0 16843010 = intRange 0 0 := by
    unfold windowRows
    have e1 : max ((0 : Int) - 16843010) 0 = 0 := by decide
    have e2 : min ((0 : Int) + 16843010) ((blurBigImg.height : Int) - 1) = 0 := by decide
    rw [e1, e2]
  have hwc : windowCols blurBigImg 0 16843010 = intRange 0 16843009 := by
    unfold windowCols
    have e1 : max ((0 : Int) - 16843010) 0 = 0 := by decide
    have e2 : min ((0 : Int) + 16843010) ((blurBigImg.width : Int) - 1) = 16843009 := by
      decide
    rw [e1, e2]
  have hwsr : windowSum blurBigImg get_r 0 0 16843010 = 255 * 16843010 := by
    unfold windowSum
    rw [hwr, hwc, hr0, rectSum_cons, rectSum_nil, Nat.add_zero,
      sum_map_const _ _ 255 (fun c hc => by rw [hpixc c hc]; decide), hcl]
  have hwsg : windowSum blurBigImg get_g 0 0 16843010 = 0 := by
    unfold windowSum
    rw [hwr, hwc, hr0, rectSum_cons, rectSum_nil, Nat.add_zero,
      sum_map_const _ _ 0 (fun c hc => by rw [hpixc c hc]; decide), hcl, Nat.zero_mul]
  have hwsb : windowSum blurBigImg get_b 0 0 16843010 = 0 := by
    unfold windowSum
    rw [hwr, hwc, hr0, rectSum_cons, rectSum_nil, Nat.add_zero,
      sum_map_const _ _ 0 (fun c hc => by rw [hpixc c hc]; decide), hcl, Nat.zero_mul]
  have hwcnt : windowCount blurBigImg 0 0 16843010 = 16843010 := by
    rw [windowCount_eq, hwr, hwc, hc1, hcl, Nat.one_mul]
  have ha : get_a (pixAtI blurBigImg 0 0) = 0 := by
    unfold pixAtI
    have hidx : ((0 : Int) * (blurBigImg.width : Int) + 0).toNat = 0 := by
      rw [Int.zero_mul, Int.zero_add]
      rfl
    rw [hidx]
    have hget : blurBigImg.data.getD 0 0 = 0xFF000000 := by
      show (List.replicate 16843010 0xFF000000).getD 0 0 = 0xFF000000
      exact getD_replicate _ (by norm_num)
    rw [hget]
    decide
  have hbp : blur_pixel blurBigImg 0 0 16843010 = make_pixel 0 0 0 0 := by
    rw [blur_pixel_totals_form, hwsr, hwsg, hwsb, hwcnt, ha]
    have m1 : 255 * 16843010 % U32 = 254 := by norm_num [U32]
    have m2 : 16843010 % U32 = 16843010 := by norm_num [U32]
    have m3 : (0 : Nat) % U32 = 0 := Nat.zero_mod _
    rw [m1, m2, m3]
  constructor
  · have hlen : (0 : Nat) * blurBigImg.width + 0 < blurBigOut.data.length := by
      show 0 * blurBigImg.width + 0 < (List.replicate 16843010 0).length
      rw [List.length_replicate, Nat.zero_mul]
      norm_num
    have h1 : (0 : Nat) < blurBigImg.height := by
      show (0 : Nat) < 1
      norm_num
    have h2 : (0 : Nat) < blurBigImg.width := by
      show (0 : Nat) < 16843010
      norm_num
    have hpix := imgproc_blur_getD blurBigImg blurBigOut 16843010 0 0 h1 h2 hlen
    rw [Nat.cast_zero] at hpix
    have hix : (0 : Nat) * blurBigImg.width + 0 = 0 := by
      rw [Nat.zero_mul]
    rw [hix] at hpix
    rw [hpix, hbp]
    decide
  · rw [hwsr, hwcnt]
